import Mathlib

/-!
Verification of the connection and session-management core of the
`wirsterm` terminal application.

The development shallowly embeds the Rust sources:
  * `crates/terminal/src/connection/telnet/protocol.rs` — the Telnet
    option-negotiation state machine (`TelnetNegotiator`),
  * `crates/terminal/src/session_store.rs` — the persistent session tree
    (`SessionStore`) and its move/find operations plus JSON serialization,
  * `crates/terminal_view/src/ssh_connect_modal.rs` — the strict
    `user@host[:port]` connection-string parser,
  * `crates/terminal/src/connection/ssh/auth.rs` — automatic key-file
    authentication,
  * `crates/terminal/src/connection/telnet/terminal.rs` and
    `crates/terminal/src/connection/ssh/session.rs` — the connection-state
    writes of the background drivers.

Machine integers of the source (`u8`, `u16`, …) are embedded as `Nat`
(with explicit truncation where the source casts) or as `Fin` of the
corresponding bound where the type itself carries the range.
-/

namespace Wirsterm

/-! ## Telnet protocol constants (protocol.rs lines 4-20) -/

def IAC : Nat := 255
def DONT : Nat := 254
def DO : Nat := 253
def WONT : Nat := 252
def WILL : Nat := 251
def SB : Nat := 250
def SE : Nat := 240

def OPT_ECHO : Nat := 1
def OPT_SUPPRESS_GO_AHEAD : Nat := 3
def OPT_TERMINAL_TYPE : Nat := 24
def OPT_NAWS : Nat := 31

def SB_IS : Nat := 0
def SB_SEND : Nat := 1

/-- `ParserState` (protocol.rs lines 22-33). -/
inductive ParserState where
  | Data
  | Iac
  | Will
  | Wont
  | Do
  | Dont
  | Sb
  | SbData
  | SbIac
deriving DecidableEq, Repr

/-- `TelnetNegotiator` (protocol.rs lines 35-41).  The terminal-type string
is embedded as its byte list. -/
structure TelnetNegotiator where
  state : ParserState
  terminal_type : List Nat
  sb_option : Nat
  sb_data : List Nat
  naws_enabled : Bool
deriving DecidableEq, Repr

/-- `TelnetNegotiator::new` (protocol.rs lines 44-52). -/
def TelnetNegotiator.new (terminal_type : List Nat) : TelnetNegotiator :=
  { state := .Data
    terminal_type := terminal_type
    sb_option := 0
    sb_data := []
    naws_enabled := false }

/-- `ProcessResult` (protocol.rs lines 230-233). -/
structure ProcessResult where
  data : List Nat
  responses : List Nat
deriving DecidableEq, Repr

/-- `TelnetNegotiator::handle_will` (protocol.rs lines 141-152). -/
def handle_will (option : Nat) : List Nat :=
  if option = OPT_ECHO ∨ option = OPT_SUPPRESS_GO_AHEAD then
    [IAC, DO, option]
  else
    [IAC, DONT, option]

/-- `TelnetNegotiator::handle_do` (protocol.rs lines 154-169); returns the
updated negotiator (it may set `naws_enabled`) and the response bytes. -/
def handle_do (neg : TelnetNegotiator) (option : Nat) :
    TelnetNegotiator × List Nat :=
  if option = OPT_TERMINAL_TYPE then
    (neg, [IAC, WILL, option])
  else if option = OPT_NAWS then
    ({ neg with naws_enabled := true }, [IAC, WILL, option])
  else
    (neg, [IAC, WONT, option])

/-- `TelnetNegotiator::handle_subnegotiation` (protocol.rs lines 171-185). -/
def handle_subnegotiation (neg : TelnetNegotiator) : List Nat :=
  if neg.sb_option = OPT_TERMINAL_TYPE then
    match neg.sb_data with
    | b :: _ =>
        if b = SB_SEND then
          [IAC, SB, OPT_TERMINAL_TYPE, SB_IS] ++ neg.terminal_type ++ [IAC, SE]
        else []
    | [] => []
  else []

/-- One iteration of the byte loop of `TelnetNegotiator::process_incoming`
(protocol.rs lines 58-132).  Returns the updated negotiator, the bytes
appended to `output_data` and the bytes appended to `responses`. -/
def process_byte (neg : TelnetNegotiator) (byte : Nat) :
    TelnetNegotiator × List Nat × List Nat :=
  match neg.state with
  | .Data =>
      if byte = IAC then ({ neg with state := .Iac }, [], [])
      else (neg, [byte], [])
  | .Iac =>
      if byte = IAC then ({ neg with state := .Data }, [IAC], [])
      else if byte = WILL then ({ neg with state := .Will }, [], [])
      else if byte = WONT then ({ neg with state := .Wont }, [], [])
      else if byte = DO then ({ neg with state := .Do }, [], [])
      else if byte = DONT then ({ neg with state := .Dont }, [], [])
      else if byte = SB then ({ neg with state := .Sb }, [], [])
      else ({ neg with state := .Data }, [], [])
  | .Will =>
      ({ neg with state := .Data }, [], handle_will byte)
  | .Wont =>
      ({ neg with state := .Data }, [], [])
  | .Do =>
      let r := handle_do neg byte
      ({ r.1 with state := .Data }, [], r.2)
  | .Dont =>
      ({ neg with state := .Data }, [], [])
  | .Sb =>
      ({ neg with state := .SbData, sb_option := byte, sb_data := [] }, [], [])
  | .SbData =>
      if byte = IAC then ({ neg with state := .SbIac }, [], [])
      else ({ neg with sb_data := neg.sb_data ++ [byte] }, [], [])
  | .SbIac =>
      if byte = SE then
        ({ neg with state := .Data }, [], handle_subnegotiation neg)
      else if byte = IAC then
        ({ neg with state := .SbData, sb_data := neg.sb_data ++ [IAC] }, [], [])
      else
        ({ neg with state := .Data }, [], [])

/-- `TelnetNegotiator::process_incoming` (protocol.rs lines 54-139). -/
def process_incoming (neg : TelnetNegotiator) :
    List Nat → TelnetNegotiator × ProcessResult
  | [] => (neg, ⟨[], []⟩)
  | b :: rest =>
      let s := process_byte neg b
      let t := process_incoming s.1 rest
      (t.1, ⟨s.2.1 ++ t.2.data, s.2.2 ++ t.2.responses⟩)

/-- `escape_data_for_send` (protocol.rs lines 235-244). -/
def escape_data_for_send : List Nat → List Nat
  | [] => []
  | b :: rest =>
      if b = IAC then b :: IAC :: escape_data_for_send rest
      else b :: escape_data_for_send rest

/-- `WindowSize` of `alacritty_terminal` (all fields `u16` in the source). -/
structure WindowSize where
  num_lines : Nat
  num_cols : Nat
  cell_width : Nat
  cell_height : Nat
deriving DecidableEq, Repr

/-- A dimension byte followed by an extra `IAC` when it equals `IAC`
(protocol.rs lines 200-219, the four `push` + conditional `push` pairs). -/
def naws_byte (b : Nat) : List Nat :=
  if b = IAC then [b, IAC] else [b]

/-- `TelnetNegotiator::build_naws` (protocol.rs lines 187-223).  The `u16`
shifts and `as u8` casts are embedded as `/ 256` and `% 256`. -/
def build_naws (neg : TelnetNegotiator) (size : WindowSize) : List Nat :=
  if ¬ neg.naws_enabled then []
  else
    let cols := size.num_cols
    let rows := size.num_lines
    [IAC, SB, OPT_NAWS]
      ++ naws_byte ((cols / 256) % 256) ++ naws_byte (cols % 256)
      ++ naws_byte ((rows / 256) % 256) ++ naws_byte (rows % 256)
      ++ [IAC, SE]

/-- `TelnetNegotiator::is_naws_enabled` (protocol.rs lines 225-227). -/
def is_naws_enabled (neg : TelnetNegotiator) : Bool :=
  neg.naws_enabled

/-! ### Negotiator lemmas -/

/-- Processing a singly-escaped byte list from the `Data` state consumes it
transparently: the application data is the unescaped list, no responses are
produced, and the negotiator is returned unchanged. -/
theorem process_escaped_transparent (neg : TelnetNegotiator)
    (h : neg.state = .Data) (B : List Nat) :
    process_incoming neg (escape_data_for_send B) = (neg, ⟨B, []⟩) := by
  induction B generalizing neg with
  | nil => simp [escape_data_for_send, process_incoming]
  | cons b rest ih =>
      by_cases hb : b = 255
      · subst hb
        have hneg : { neg with state := ParserState.Data } = neg := by
          cases neg; simp_all
        have h1 : process_byte neg 255 = ({ neg with state := .Iac }, [], []) := by
          simp [process_byte, h, IAC]
        have h2 : process_byte { neg with state := ParserState.Iac } 255
            = ({ neg with state := .Data }, [255], []) := by
          simp [process_byte, IAC]
        simp only [escape_data_for_send, IAC, if_pos rfl, process_incoming, h1, h2]
        rw [hneg, ih _ h]
        simp
      · have h1 : process_byte neg b = (neg, [b], []) := by
          simp [process_byte, h, IAC, hb]
        simp only [escape_data_for_send, IAC, if_neg hb, process_incoming, h1]
        rw [ih _ h]
        simp

/-- A byte list without `0xFF` is its own escaping. -/
theorem escape_eq_self (B : List Nat) (h : IAC ∉ B) :
    escape_data_for_send B = B := by
  induction B with
  | nil => rfl
  | cons b rest ih =>
      simp only [List.mem_cons, not_or] at h
      have hb : b ≠ IAC := fun hb => h.1 hb.symm
      simp [escape_data_for_send, hb, ih h.2]

/-- C1: feeding `escape_data_for_send(B)` to a fresh `TelnetNegotiator`
yields application data exactly `B` with no responses; in particular a
byte list containing no `0xFF` passes through unchanged with no
responses. -/
theorem iac_roundtrip (tt B : List Nat) :
    process_incoming (TelnetNegotiator.new tt) (escape_data_for_send B)
        = (TelnetNegotiator.new tt, ⟨B, []⟩)
      ∧ (255 ∉ B →
          process_incoming (TelnetNegotiator.new tt) B
            = (TelnetNegotiator.new tt, ⟨B, []⟩)) := by
  constructor
  · exact process_escaped_transparent (TelnetNegotiator.new tt) rfl B
  · intro hB
    have he : escape_data_for_send B = B := escape_eq_self B hB
    have hp := process_escaped_transparent (TelnetNegotiator.new tt) rfl B
    rwa [he] at hp

/-- Witness for `iac_roundtrip`: concrete instantiation, discharging the
no-`0xFF` hypothesis at `B = [104, 105]`. -/
theorem iac_roundtrip_witness :
    process_incoming (TelnetNegotiator.new [120]) [104, 105]
      = (TelnetNegotiator.new [120], ⟨[104, 105], []⟩) :=
  (iac_roundtrip [120] [104, 105]).2 (by decide)

/-- `build_naws` is empty exactly when NAWS has not been enabled. -/
theorem build_naws_eq_nil_iff (neg : TelnetNegotiator) (size : WindowSize) :
    build_naws neg size = [] ↔ is_naws_enabled neg = false := by
  cases hn : neg.naws_enabled <;>
    simp [build_naws, is_naws_enabled, hn, naws_byte]

/-- Shape of the NAWS packet for in-range (`u16`) dimensions. -/
theorem build_naws_shape (neg : TelnetNegotiator) (size : WindowSize)
    (hn : neg.naws_enabled = true)
    (hc : size.num_cols < 65536) (hr : size.num_lines < 65536) :
    build_naws neg size
      = [IAC, SB, OPT_NAWS]
          ++ naws_byte (size.num_cols / 256) ++ naws_byte (size.num_cols % 256)
          ++ naws_byte (size.num_lines / 256) ++ naws_byte (size.num_lines % 256)
          ++ [IAC, SE] := by
  have hcd : size.num_cols / 256 < 256 := by omega
  have hrd : size.num_lines / 256 < 256 := by omega
  simp [build_naws, hn, Nat.mod_eq_of_lt hcd, Nat.mod_eq_of_lt hrd]

/-- A processing step enables NAWS exactly when the incoming byte is the
NAWS option while the parser sits in the `Do` state; otherwise the flag is
carried over (in particular it never reverts). -/
theorem naws_enabled_step (neg : TelnetNegotiator) (b : Nat) :
    (process_byte neg b).1.naws_enabled = true ↔
      (neg.naws_enabled = true ∨ (neg.state = .Do ∧ b = OPT_NAWS)) := by
  cases hs : neg.state <;>
    simp only [process_byte, hs, handle_do, handle_subnegotiation] <;>
    (try split_ifs) <;>
    simp_all [IAC, WILL, WONT, DO, DONT, SB, SE,
      OPT_TERMINAL_TYPE, OPT_NAWS]

/-- C6: NAWS gating and packet construction.  `build_naws` is empty iff the
flag set only by `IAC DO NAWS` is unset; once enabled the packet is
`IAC SB NAWS` followed by the big-endian 16-bit dimensions with `0xFF`
bytes doubled and `IAC SE`; scenario S1: after `FF FD 1F` the responses are
`FF FB 1F` and `build_naws` at 80×24 yields `FF FA 1F 00 50 00 18 FF F0`. -/
theorem naws_gating (neg : TelnetNegotiator) (size : WindowSize)
    (tt : List Nat) (b : Nat) :
    (build_naws neg size = [] ↔ is_naws_enabled neg = false)
  ∧ ((process_byte neg b).1.naws_enabled = true ↔
      (neg.naws_enabled = true ∨ (neg.state = .Do ∧ b = OPT_NAWS)))
  ∧ (neg.naws_enabled = true → size.num_cols < 65536 → size.num_lines < 65536 →
      build_naws neg size
        = [IAC, SB, OPT_NAWS]
            ++ naws_byte (size.num_cols / 256) ++ naws_byte (size.num_cols % 256)
            ++ naws_byte (size.num_lines / 256) ++ naws_byte (size.num_lines % 256)
            ++ [IAC, SE])
  ∧ (process_incoming (TelnetNegotiator.new tt) [255, 253, 31]).2
      = ⟨[], [255, 251, 31]⟩
  ∧ build_naws (process_incoming (TelnetNegotiator.new tt) [255, 253, 31]).1
      ⟨24, 80, 8, 16⟩
      = [255, 250, 31, 0, 80, 0, 24, 255, 240] := by
  refine ⟨build_naws_eq_nil_iff neg size, naws_enabled_step neg b,
    build_naws_shape neg size, ?_, ?_⟩ <;>
    simp [process_incoming, process_byte, handle_do, build_naws, naws_byte,
      TelnetNegotiator.new, IAC, WILL, WONT, DO, DONT, SB, SE,
      OPT_TERMINAL_TYPE, OPT_NAWS]

/-- Witness for `naws_gating`: concrete instantiation; the packet-shape
conjunct is discharged at an enabled negotiator with size 80×24. -/
theorem naws_gating_witness :
    build_naws ⟨.Data, [120], 0, [], true⟩ ⟨24, 80, 8, 16⟩
      = [IAC, SB, OPT_NAWS]
          ++ naws_byte (80 / 256) ++ naws_byte (80 % 256)
          ++ naws_byte (24 / 256) ++ naws_byte (24 % 256)
          ++ [IAC, SE] :=
  (naws_gating ⟨.Data, [120], 0, [], true⟩ ⟨24, 80, 8, 16⟩ [120] 0).2.2.1
    (by decide) (by decide) (by decide)

/-- C5: option refusal.  On a fresh negotiator, `IAC WILL o` for
`o ∉ {ECHO, SUPPRESS_GO_AHEAD}` yields exactly `IAC DONT o` with no
application data, and `IAC DO o` for `o ∉ {TERMINAL_TYPE, NAWS}` yields
exactly `IAC WONT o` with no application data. -/
theorem option_refusal (tt : List Nat) (o : Nat) (ho : o < 256) :
    (o ≠ OPT_ECHO → o ≠ OPT_SUPPRESS_GO_AHEAD →
      process_incoming (TelnetNegotiator.new tt) [IAC, WILL, o]
        = (TelnetNegotiator.new tt, ⟨[], [IAC, DONT, o]⟩))
  ∧ (o ≠ OPT_TERMINAL_TYPE → o ≠ OPT_NAWS →
      process_incoming (TelnetNegotiator.new tt) [IAC, DO, o]
        = (TelnetNegotiator.new tt, ⟨[], [IAC, WONT, o]⟩)) := by
  constructor
  · intro h1 h3
    simp_all [process_incoming, process_byte, handle_will,
      TelnetNegotiator.new, IAC, WILL, WONT, DO, DONT, SB, SE,
      OPT_ECHO, OPT_SUPPRESS_GO_AHEAD]
  · intro h24 h31
    simp_all [process_incoming, process_byte, handle_do,
      TelnetNegotiator.new, IAC, WILL, WONT, DO, DONT, SB, SE,
      OPT_TERMINAL_TYPE, OPT_NAWS]

/-- Witness for `option_refusal` at option byte 5. -/
theorem option_refusal_witness :
    process_incoming (TelnetNegotiator.new [120]) [IAC, WILL, 5]
      = (TelnetNegotiator.new [120], ⟨[], [IAC, DONT, 5]⟩) :=
  (option_refusal [120] 5 (by decide)).1 (by decide) (by decide)

/-! ## Session store data model (session_store.rs lines 14-207)

`Uuid` is embedded as `String` (only equality and the string JSON form are
used).  `u16`/`u32`/`u64` fields are embedded as `Fin` of the matching
bound, so every Lean value corresponds to a representable Rust value.
`HashMap<String, String>` is embedded as an association list; serde
serializes it as a JSON object and deserializes the same entries back. -/

/-- `AuthMethod` (session_store.rs lines 166-173); `PathBuf` as `String`. -/
inductive AuthMethod where
  | Interactive
  | Password (password : String)
  | PrivateKey (path : String) (passphrase : Option String)
  | Agent
deriving DecidableEq, Repr

/-- `SshSessionConfig` (session_store.rs lines 129-139). -/
structure SshSessionConfig where
  host : String
  port : Fin 65536
  username : Option String
  auth : AuthMethod
  env : List (String × String)
  keepalive_interval_secs : Option (Fin 18446744073709551616)
  initial_command : Option String
deriving DecidableEq, Repr

/-- `TelnetSessionConfig` (session_store.rs lines 176-185). -/
structure TelnetSessionConfig where
  host : String
  port : Fin 65536
  username : Option String
  password : Option String
  encoding : Option String
deriving DecidableEq, Repr

/-- `ProtocolConfig` (session_store.rs lines 121-126). -/
inductive ProtocolConfig where
  | Ssh (cfg : SshSessionConfig)
  | Telnet (cfg : TelnetSessionConfig)
deriving DecidableEq, Repr

/-- `CredentialPreset` (session_store.rs lines 15-21). -/
structure CredentialPreset where
  id : String
  name : String
  username : String
  password : String
deriving DecidableEq, Repr

/-- `SessionNode` (session_store.rs lines 35-40).  The `SessionGroup` and
`SessionConfig` payloads (lines 70-77 and 91-98) are inlined as constructor
fields because Lean does not allow a structure in a nested inductive:
`Group id name expanded children` and `Session id name tags protocol`. -/
inductive SessionNode where
  | Group (id : String) (name : String) (expanded : Bool)
      (children : List SessionNode)
  | Session (id : String) (name : String) (tags : List String)
      (protocol : ProtocolConfig)

/-- Induction principle for forests of session nodes, descending both into
the tail of the list and into the children of a group. -/
theorem forest_induction (motive : List SessionNode → Prop)
    (nil : motive [])
    (session : ∀ i nm tags proto rest, motive rest →
      motive (.Session i nm tags proto :: rest))
    (group : ∀ i nm exp cs rest, motive cs → motive rest →
      motive (.Group i nm exp cs :: rest)) :
    ∀ f, motive f
  | [] => nil
  | .Session i nm tags proto :: rest =>
      session i nm tags proto rest (forest_induction motive nil session group rest)
  | .Group i nm exp cs :: rest =>
      group i nm exp cs rest
        (forest_induction motive nil session group cs)
        (forest_induction motive nil session group rest)

mutual

/-- Structural equality test for `SessionNode` (the `PartialEq` that
`#[derive]` produces in the source). -/
def SessionNode.beq : SessionNode → SessionNode → Bool
  | .Group i1 n1 e1 c1, .Group i2 n2 e2 c2 =>
      i1 == i2 && n1 == n2 && e1 == e2 && SessionNode.beqList c1 c2
  | .Session i1 n1 t1 p1, .Session i2 n2 t2 p2 =>
      i1 == i2 && n1 == n2 && t1 == t2 && p1 == p2
  | _, _ => false

/-- Pointwise `SessionNode.beq` on forests. -/
def SessionNode.beqList : List SessionNode → List SessionNode → Bool
  | [], [] => true
  | x :: xs, y :: ys => SessionNode.beq x y && SessionNode.beqList xs ys
  | _, _ => false

end

theorem SessionNode.beqList_iff :
    ∀ f g : List SessionNode, SessionNode.beqList f g = true ↔ f = g := by
  intro f
  induction f using forest_induction with
  | nil => intro g; cases g <;> simp [SessionNode.beqList]
  | session i nm tags proto rest ih =>
      intro g
      cases g with
      | nil => simp [SessionNode.beqList]
      | cons y ys =>
          cases y <;>
            simp [SessionNode.beqList, SessionNode.beq, ih] <;>
            (intro _; tauto)
  | group i nm exp cs rest ihc ih =>
      intro g
      cases g with
      | nil => simp [SessionNode.beqList]
      | cons y ys =>
          cases y <;>
            simp [SessionNode.beqList, SessionNode.beq, ihc, ih] <;>
            (intro _; tauto)

instance : DecidableEq SessionNode := fun a b =>
  decidable_of_iff (SessionNode.beqList [a] [b] = true)
    (by rw [SessionNode.beqList_iff]; simp)

/-- `SessionNode::id` (session_store.rs lines 43-48). -/
def SessionNode.id : SessionNode → String
  | .Group i _ _ _ => i
  | .Session i _ _ _ => i

/-- `SessionStore` (session_store.rs lines 285-291). -/
structure SessionStore where
  version : Fin 4294967296
  root : List SessionNode
  credential_presets : List CredentialPreset
deriving DecidableEq

/-- `Iterator::position(|n| n.id() == id)` over a node list, as used by
`find_node_location`, `remove_from_parent` and `remove_node_recursive`. -/
def position_of : List SessionNode → String → Option Nat
  | [], _ => none
  | n :: rest, i =>
      if n.id = i then some 0
      else (position_of rest i).map (· + 1)

/-- `SessionStore::find_node_recursive` (session_store.rs lines 380-392). -/
def find_node_recursive : List SessionNode → String → Option SessionNode
  | [], _ => none
  | .Session sid nm tags proto :: rest, i =>
      if sid = i then some (.Session sid nm tags proto)
      else find_node_recursive rest i
  | .Group gid nm exp cs :: rest, i =>
      if gid = i then some (.Group gid nm exp cs)
      else
        match find_node_recursive cs i with
        | some found => some found
        | none => find_node_recursive rest i

/-- `SessionStore::contains_node` (session_store.rs lines 488-500). -/
def contains_node : List SessionNode → String → Bool
  | [], _ => false
  | .Session sid _ _ _ :: rest, i =>
      if sid = i then true else contains_node rest i
  | .Group gid _ _ cs :: rest, i =>
      if gid = i then true
      else if contains_node cs i then true
      else contains_node rest i

/-- `SessionStore::find_node_location_recursive`
(session_store.rs lines 462-477). -/
def find_node_location_recursive :
    List SessionNode → String → Option (Option String × Nat)
  | [], _ => none
  | .Session _ _ _ _ :: rest, i => find_node_location_recursive rest i
  | .Group gid _ _ cs :: rest, i =>
      match position_of cs i with
      | some idx => some (some gid, idx)
      | none =>
          match find_node_location_recursive cs i with
          | some found => some found
          | none => find_node_location_recursive rest i

/-- `SessionStore::remove_from_parent` (session_store.rs lines 502-522),
functionally: returns the removed node (if any) and the updated forest. -/
def remove_from_parent :
    List SessionNode → Option String → String → Option SessionNode × List SessionNode
  | [], _, _ => (none, [])
  | .Session sid nm tags proto :: rest, pid, nid =>
      let r := remove_from_parent rest pid nid
      (r.1, .Session sid nm tags proto :: r.2)
  | .Group gid nm exp cs :: rest, pid, nid =>
      match (if some gid = pid then position_of cs nid else none) with
      | some idx => (cs[idx]?, .Group gid nm exp (cs.eraseIdx idx) :: rest)
      | none =>
          let rc := remove_from_parent cs pid nid
          match rc.1 with
          | some c => (some c, .Group gid nm exp rc.2 :: rest)
          | none =>
              let rr := remove_from_parent rest pid nid
              (rr.1, .Group gid nm exp rc.2 :: rr.2)

/-- `Vec::insert` at a clamped-valid index, as used by `move_node` and
`insert_into_parent` (the callers clamp the index to the length first). -/
def insert_at : List SessionNode → Nat → SessionNode → List SessionNode
  | l, 0, x => x :: l
  | [], _ + 1, x => [x]
  | a :: l, n + 1, x => a :: insert_at l n x

/-- `SessionStore::insert_into_parent` (session_store.rs lines 524-535). -/
def insert_into_parent :
    List SessionNode → String → SessionNode → Nat → List SessionNode
  | [], _, _, _ => []
  | .Session sid nm tags proto :: rest, pid, node, idx =>
      .Session sid nm tags proto :: insert_into_parent rest pid node idx
  | .Group gid nm exp cs :: rest, pid, node, idx =>
      if gid = pid then
        .Group gid nm exp (insert_at cs (min idx cs.length) node) :: rest
      else
        .Group gid nm exp (insert_into_parent cs pid node idx)
          :: insert_into_parent rest pid node idx

/-- `SessionStore::find_node` (session_store.rs lines 339-341). -/
def find_node (store : SessionStore) (i : String) : Option SessionNode :=
  find_node_recursive store.root i

/-- `SessionStore::find_node_location` (session_store.rs lines 454-460). -/
def find_node_location (store : SessionStore) (i : String) :
    Option (Option String × Nat) :=
  match position_of store.root i with
  | some idx => some (none, idx)
  | none => find_node_location_recursive store.root i

/-- `SessionStore::is_ancestor_of` (session_store.rs lines 481-486). -/
def is_ancestor_of (store : SessionStore) (ancestor_id node_id : String) :
    Bool :=
  match find_node store ancestor_id with
  | some (.Group _ _ _ cs) => contains_node cs node_id
  | _ => false

/-- `SessionStore::move_node` (session_store.rs lines 410-449).  In the
root-removal branch the source indexes unconditionally
(`self.root.remove(current_index)`, always in range because the location
came from `position`); the embedding reads the element with `[·]?` and the
impossible out-of-range case falls into the shared `none => (store, false)`
arm. -/
def move_node (store : SessionStore) (node_id : String)
    (new_parent_id : Option String) (index : Nat) : SessionStore × Bool :=
  if (match new_parent_id with
      | some np => is_ancestor_of store node_id np
      | none => false) then
    (store, false)
  else
    match find_node_location store node_id with
    | none => (store, false)
    | some (current_parent, current_index) =>
        let removed : Option SessionNode × List SessionNode :=
          match current_parent with
          | none => (store.root[current_index]?, store.root.eraseIdx current_index)
          | some _ => remove_from_parent store.root current_parent node_id
        match removed.1 with
        | none => (store, false)
        | some node =>
            let adjusted_index :=
              if current_parent = new_parent_id ∧ current_index < index then
                index - 1
              else index
            match new_parent_id with
            | none =>
                ({ store with
                    root := insert_at removed.2
                      (min adjusted_index removed.2.length) node }, true)
            | some pid =>
                ({ store with
                    root := insert_into_parent removed.2 pid node
                      adjusted_index }, true)

/-! ### Session store lemmas -/

/-- C2: `move_node` refuses and leaves the store untouched whenever the
destination parent is a descendant of the moved node. -/
theorem move_node_cycle_rejected (store : SessionStore)
    (node_id np : String) (index : Nat)
    (h : is_ancestor_of store node_id np = true) :
    move_node store node_id (some np) index = (store, false) := by
  simp [move_node, h]

/-- Witness for `move_node_cycle_rejected`: scenario S5, a store whose root
is `Outer` containing `Inner`; moving `Outer` under `Inner` fails and
changes nothing. -/
theorem move_node_cycle_rejected_witness :
    move_node ⟨1, [.Group "o" "Outer" true [.Group "i" "Inner" true []]], []⟩
        "o" (some "i") 0
      = (⟨1, [.Group "o" "Outer" true [.Group "i" "Inner" true []]], []⟩,
          false) :=
  move_node_cycle_rejected _ "o" "i" 0
    (by simp [is_ancestor_of, find_node, find_node_recursive, contains_node])

/-- C4 is violated by the code: moving the only session `a` onto the
(non-group) parent `a` itself removes the node, inserts it nowhere, and
still reports success — the node is lost from the store. -/
theorem move_node_loses_node_on_invalid_parent :
    move_node
        ⟨1, [.Session "a" "A" [] (.Telnet ⟨"h", 23, none, none, none⟩)], []⟩
        "a" (some "a") 0
      = (⟨1, [], []⟩, true)
  ∧ find_node ⟨1, [], []⟩ "a" = none := by
  constructor
  · simp [move_node, is_ancestor_of, find_node, find_node_recursive,
      contains_node, find_node_location, position_of, SessionNode.id,
      find_node_location_recursive, insert_into_parent, List.eraseIdx]
  · simp [find_node, find_node_recursive]

/-- All ids of a forest, each node followed by its descendants. -/
def forest_ids : List SessionNode → List String
  | [] => []
  | .Session sid _ _ _ :: rest => sid :: forest_ids rest
  | .Group gid _ _ cs :: rest => gid :: (forest_ids cs ++ forest_ids rest)

/-- The children list of the `move_node` destination: the root list for
`none`, the children of the group found by `find_node` for `some g`. -/
def children_at (store : SessionStore) : Option String → Option (List SessionNode)
  | none => some store.root
  | some g =>
      match find_node store g with
      | some (.Group _ _ _ cs) => some cs
      | _ => none

theorem position_of_get {l : List SessionNode} {i : String} {k : Nat}
    (h : position_of l i = some k) :
    ∃ nd, l[k]? = some nd ∧ nd.id = i := by
  induction l generalizing k with
  | nil => simp [position_of] at h
  | cons a l ih =>
      by_cases ha : a.id = i
      · rw [position_of, if_pos ha] at h
        cases h
        exact ⟨a, by simp, ha⟩
      · rw [position_of, if_neg ha] at h
        cases hpos : position_of l i with
        | none => rw [hpos] at h; simp at h
        | some k' =>
            rw [hpos] at h
            simp only [Option.map_some'] at h
            cases h
            obtain ⟨nd, h1, h2⟩ := ih hpos
            exact ⟨nd, by simpa using h1, h2⟩

theorem id_mem_forest_ids {nd : SessionNode} {f : List SessionNode}
    (h : nd ∈ f) : nd.id ∈ forest_ids f := by
  induction f using forest_induction with
  | nil => simp at h
  | session sid nm tags proto rest ih =>
      rcases List.mem_cons.mp h with rfl | h
      · simp [forest_ids, SessionNode.id]
      · simp [forest_ids, ih h]
  | group gid nm exp cs rest ihc ih =>
      rcases List.mem_cons.mp h with rfl | h
      · simp [forest_ids, SessionNode.id]
      · simp [forest_ids, ih h]

theorem find_isSome_iff_mem (i : String) :
    ∀ f : List SessionNode,
      (find_node_recursive f i).isSome = true ↔ i ∈ forest_ids f := by
  intro f
  induction f using forest_induction with
  | nil => simp [find_node_recursive, forest_ids]
  | session sid nm tags proto rest ih =>
      by_cases hs : sid = i
      · simp [find_node_recursive, forest_ids, hs]
      · have hs' : i ≠ sid := fun h => hs h.symm
        simp [find_node_recursive, forest_ids, hs, hs', ih]
  | group gid nm exp cs rest ihc ih =>
      by_cases hg : gid = i
      · simp [find_node_recursive, forest_ids, hg]
      · have hg' : i ≠ gid := fun h => hg h.symm
        cases hc : find_node_recursive cs i with
        | some nd =>
            have hm : i ∈ forest_ids cs := by rw [← ihc]; simp [hc]
            simp [find_node_recursive, forest_ids, hg, hc, hm]
        | none =>
            have hm : i ∉ forest_ids cs := by rw [← ihc]; simp [hc]
            simp [find_node_recursive, forest_ids, hg, hg', hc, hm, ih]

theorem find_eq_none_of_not_mem {i : String} {f : List SessionNode}
    (h : i ∉ forest_ids f) : find_node_recursive f i = none := by
  cases hf : find_node_recursive f i with
  | none => rfl
  | some nd =>
      exact absurd ((find_isSome_iff_mem i f).mp (by simp [hf])) h

theorem find_some_mem {i : String} {f : List SessionNode} {nd : SessionNode}
    (h : find_node_recursive f i = some nd) : i ∈ forest_ids f :=
  (find_isSome_iff_mem i f).mp (by simp [h])

theorem find_id {i : String} :
    ∀ {f : List SessionNode} {nd : SessionNode},
      find_node_recursive f i = some nd → nd.id = i := by
  intro f
  induction f using forest_induction with
  | nil => intro nd h; simp [find_node_recursive] at h
  | session sid nm tags proto rest ih =>
      intro nd h
      by_cases hs : sid = i
      · rw [find_node_recursive, if_pos hs] at h
        cases h; simpa [SessionNode.id]
      · rw [find_node_recursive, if_neg hs] at h
        exact ih h
  | group gid nm exp cs rest ihc ih =>
      intro nd h
      by_cases hg : gid = i
      · rw [find_node_recursive, if_pos hg] at h
        cases h; simpa [SessionNode.id]
      · rw [find_node_recursive, if_neg hg] at h
        cases hc : find_node_recursive cs i with
        | some found => rw [hc] at h; cases h; exact ihc hc
        | none => rw [hc] at h; exact ih h

theorem subtree_ids_subset {i : String} :
    ∀ {f : List SessionNode} {j nm : String} {exp : Bool}
      {cs₂ : List SessionNode},
      find_node_recursive f i = some (.Group j nm exp cs₂) →
      ∀ {x}, x ∈ forest_ids cs₂ → x ∈ forest_ids f := by
  intro f
  induction f using forest_induction with
  | nil => intro j nm exp cs₂ h; simp [find_node_recursive] at h
  | session sid nm tags proto rest ih =>
      intro j nm2 exp cs₂ h x hx
      by_cases hs : sid = i
      · rw [find_node_recursive, if_pos hs] at h; cases h
      · rw [find_node_recursive, if_neg hs] at h
        simp [forest_ids, ih h hx]
  | group gid nm exp cs rest ihc ih =>
      intro j nm2 exp2 cs₂ h x hx
      by_cases hg : gid = i
      · rw [find_node_recursive, if_pos hg] at h
        cases h
        simp [forest_ids, hx]
      · rw [find_node_recursive, if_neg hg] at h
        cases hc : find_node_recursive cs i with
        | some found =>
            rw [hc] at h; cases h
            simp [forest_ids, ihc hc hx]
        | none =>
            rw [hc] at h
            simp [forest_ids, ih h hx]

theorem contains_iff_mem (i : String) :
    ∀ f : List SessionNode, contains_node f i = true ↔ i ∈ forest_ids f := by
  intro f
  induction f using forest_induction with
  | nil => simp [contains_node, forest_ids]
  | session sid nm tags proto rest ih =>
      by_cases hs : sid = i
      · simp [contains_node, forest_ids, hs]
      · have hs' : i ≠ sid := fun h => hs h.symm
        simp [contains_node, forest_ids, hs, hs', ih]
  | group gid nm exp cs rest ihc ih =>
      by_cases hg : gid = i
      · simp [contains_node, forest_ids, hg]
      · have hg' : i ≠ gid := fun h => hg h.symm
        by_cases hc : contains_node cs i = true <;>
          simp_all [contains_node, forest_ids]

theorem insert_into_parent_not_mem {g : String} {node : SessionNode}
    {idx : Nat} :
    ∀ {f : List SessionNode}, g ∉ forest_ids f →
      insert_into_parent f g node idx = f := by
  intro f
  induction f using forest_induction with
  | nil => intro _; rfl
  | session sid nm tags proto rest ih =>
      intro h
      simp only [forest_ids, List.mem_cons, not_or] at h
      simp [insert_into_parent, ih h.2]
  | group gid nm exp cs rest ihc ih =>
      intro h
      simp only [forest_ids, List.mem_cons, List.mem_append, not_or] at h
      have hg : gid ≠ g := fun e => h.1 e.symm
      simp [insert_into_parent, hg, ihc h.2.1, ih h.2.2]

theorem remove_from_parent_not_mem {g nid : String} :
    ∀ {f : List SessionNode}, g ∉ forest_ids f →
      remove_from_parent f (some g) nid = (none, f) := by
  intro f
  induction f using forest_induction with
  | nil => intro _; simp [remove_from_parent]
  | session sid nm tags proto rest ih =>
      intro h
      simp only [forest_ids, List.mem_cons, not_or] at h
      simp [remove_from_parent, ih h.2]
  | group gid nm exp cs rest ihc ih =>
      intro h
      simp only [forest_ids, List.mem_cons, List.mem_append, not_or] at h
      have hg : gid ≠ g := fun e => h.1 e.symm
      simp [remove_from_parent, hg, ihc h.2.1, ih h.2.2]

theorem forest_ids_eraseIdx_sublist :
    ∀ (cs : List SessionNode) (k : Nat),
      (forest_ids (cs.eraseIdx k)).Sublist (forest_ids cs) := by
  intro cs
  induction cs with
  | nil => intro k; simp [List.eraseIdx]
  | cons a l ih =>
      intro k
      cases k with
      | zero =>
          cases a with
          | Session sid nm tags proto =>
              simpa [List.eraseIdx, forest_ids] using
                List.sublist_cons_self sid (forest_ids l)
          | Group gid nm exp cs' =>
              simpa [List.eraseIdx, forest_ids] using
                (List.sublist_append_right (forest_ids cs') (forest_ids l)).cons
                  gid
      | succ k =>
          cases a with
          | Session sid nm tags proto =>
              simp only [List.eraseIdx, forest_ids]
              exact (ih k).cons₂ sid
          | Group gid nm exp cs' =>
              simp only [List.eraseIdx, forest_ids]
              exact ((ih k).append_left (forest_ids cs')).cons₂ gid

/-- With unique ids, `insert_into_parent` replaces the children of the
group `find_node_recursive` locates by the clamped insertion. -/
theorem find_insert (node : SessionNode) (idx : Nat)
    {g nm : String} {exp : Bool} {cs : List SessionNode} :
    ∀ {f : List SessionNode}, (forest_ids f).Nodup →
      find_node_recursive f g = some (.Group g nm exp cs) →
      find_node_recursive (insert_into_parent f g node idx) g
        = some (.Group g nm exp (insert_at cs (min idx cs.length) node)) := by
  intro f
  induction f using forest_induction with
  | nil => intro _ h; simp [find_node_recursive] at h
  | session sid nm2 tags proto rest ih =>
      intro hnd h
      by_cases hs : sid = g
      · rw [find_node_recursive, if_pos hs] at h; cases h
      · rw [find_node_recursive, if_neg hs] at h
        simp only [forest_ids, List.nodup_cons] at hnd
        simp only [insert_into_parent]
        rw [find_node_recursive, if_neg hs]
        exact ih hnd.2 h
  | group gid nm2 exp2 cs2 rest ihc ih =>
      intro hnd h
      simp only [forest_ids, List.nodup_cons, List.nodup_append,
        List.mem_append, not_or] at hnd
      obtain ⟨⟨hg1, hg2⟩, hndc, hndr, hdisj⟩ := hnd
      by_cases hg : gid = g
      · rw [find_node_recursive, if_pos hg] at h
        injection h with h
        injection h with e1 e2 e3 e4
        subst e2; subst e3; subst e4
        simp only [insert_into_parent, if_pos hg]
        rw [find_node_recursive, if_pos hg, hg]
      · rw [find_node_recursive, if_neg hg] at h
        cases hc : find_node_recursive cs2 g with
        | some found =>
            rw [hc] at h
            injection h with h; subst h
            have hmem : g ∈ forest_ids cs2 := find_some_mem hc
            have hnr : g ∉ forest_ids rest := fun hr =>
              (List.disjoint_left.mp hdisj hmem) hr
            simp only [insert_into_parent, if_neg hg,
              insert_into_parent_not_mem hnr]
            rw [find_node_recursive, if_neg hg]
            rw [ihc hndc hc]
        | none =>
            rw [hc] at h
            have hnc : g ∉ forest_ids cs2 := fun hm => by
              have := (find_isSome_iff_mem g cs2).mpr hm
              rw [hc] at this; simp at this
            simp only [insert_into_parent, if_neg hg,
              insert_into_parent_not_mem hnc]
            rw [find_node_recursive, if_neg hg, hc]
            exact ih hndr h

/-- With unique ids, `remove_from_parent` removes exactly the located child
from the group `find_node_recursive` locates; the removed subtree's ids
leave the forest (sublist), and the group is found again with the child
erased. -/
theorem remove_spec {g nm nid : String} {exp : Bool} {cs : List SessionNode}
    {old : Nat} :
    ∀ {f : List SessionNode}, (forest_ids f).Nodup →
      find_node_recursive f g = some (.Group g nm exp cs) →
      position_of cs nid = some old →
      (remove_from_parent f (some g) nid).1 = cs[old]?
      ∧ find_node_recursive (remove_from_parent f (some g) nid).2 g
          = some (.Group g nm exp (cs.eraseIdx old))
      ∧ (forest_ids (remove_from_parent f (some g) nid).2).Sublist
          (forest_ids f) := by
  intro f
  induction f using forest_induction with
  | nil => intro _ h _; simp [find_node_recursive] at h
  | session sid nm2 tags proto rest ih =>
      intro hnd h hpos
      by_cases hs : sid = g
      · rw [find_node_recursive, if_pos hs] at h; cases h
      · rw [find_node_recursive, if_neg hs] at h
        simp only [forest_ids, List.nodup_cons] at hnd
        obtain ⟨h1, h2, h3⟩ := ih hnd.2 h hpos
        refine ⟨by simp only [remove_from_parent]; exact h1, ?_, ?_⟩
        · simp only [remove_from_parent]
          rw [find_node_recursive, if_neg hs]
          exact h2
        · simp only [remove_from_parent, forest_ids]
          exact h3.cons₂ sid
  | group gid nm2 exp2 cs2 rest ihc ih =>
      intro hnd h hpos
      simp only [forest_ids, List.nodup_cons, List.nodup_append,
        List.mem_append, not_or] at hnd
      obtain ⟨⟨hg1, hg2⟩, hndc, hndr, hdisj⟩ := hnd
      by_cases hg : gid = g
      · rw [find_node_recursive, if_pos hg] at h
        injection h with h
        injection h with e1 e2 e3 e4
        subst hg; subst e2; subst e3; subst e4
        have hsnd : (remove_from_parent
              (SessionNode.Group gid nm2 exp2 cs2 :: rest) (some gid) nid).2
            = SessionNode.Group gid nm2 exp2 (cs2.eraseIdx old) :: rest := by
          simp [remove_from_parent, hpos]
        refine ⟨by simp [remove_from_parent, hpos], ?_, ?_⟩
        · rw [hsnd, find_node_recursive, if_pos rfl]
        · rw [hsnd]
          simp only [forest_ids]
          exact ((forest_ids_eraseIdx_sublist cs2 old).append_right
            (forest_ids rest)).cons₂ gid
      · have hif : (if some gid = some g then position_of cs2 nid else none)
            = none := by simp [hg]
        rw [find_node_recursive, if_neg hg] at h
        cases hc : find_node_recursive cs2 g with
        | some found =>
            rw [hc] at h
            injection h with h; subst h
            have hmem : g ∈ forest_ids cs2 := find_some_mem hc
            obtain ⟨h1, h2, h3⟩ := ihc hndc hc hpos
            obtain ⟨nd, hnd', hid⟩ := position_of_get hpos
            have h1' : (remove_from_parent cs2 (some g) nid).1 = some nd := by
              rw [h1, hnd']
            refine ⟨?_, ?_, ?_⟩
            · simp only [remove_from_parent, hif, h1', hnd']
            · simp only [remove_from_parent, hif, h1']
              rw [find_node_recursive, if_neg hg]
              rw [h2]
            · simp only [remove_from_parent, hif, h1', forest_ids]
              exact (h3.append_right (forest_ids rest)).cons₂ gid
        | none =>
            rw [hc] at h
            have hnc : g ∉ forest_ids cs2 := fun hm => by
              have := (find_isSome_iff_mem g cs2).mpr hm
              rw [hc] at this; simp at this
            have hrc : remove_from_parent cs2 (some g) nid = (none, cs2) :=
              remove_from_parent_not_mem hnc
            obtain ⟨h1, h2, h3⟩ := ih hndr h hpos
            refine ⟨?_, ?_, ?_⟩
            · simp only [remove_from_parent, hif, hrc]
              exact h1
            · simp only [remove_from_parent, hif, hrc]
              rw [find_node_recursive, if_neg hg, hc]
              exact h2
            · simp only [remove_from_parent, hif, hrc, forest_ids]
              exact (h3.append_left (forest_ids cs2)).cons₂ gid

theorem position_of_mem_ids {l : List SessionNode} {i : String} {k : Nat}
    (h : position_of l i = some k) : i ∈ forest_ids l := by
  obtain ⟨nd, h1, h2⟩ := position_of_get h
  rw [List.getElem?_eq_some] at h1
  obtain ⟨hk, he⟩ := h1
  exact h2 ▸ id_mem_forest_ids (he ▸ List.getElem_mem hk)

/-- With unique ids, a node sitting among the descendants of group `g`
cannot itself have `g` among its descendants: the cycle check of
`move_node` passes. -/
theorem no_cycle {g nm n : String} {exp : Bool} {cs : List SessionNode} :
    ∀ {f : List SessionNode}, (forest_ids f).Nodup →
      find_node_recursive f g = some (.Group g nm exp cs) →
      n ∈ forest_ids cs →
      ∀ {j nmj : String} {expj : Bool} {csj : List SessionNode},
        find_node_recursive f n = some (.Group j nmj expj csj) →
        contains_node csj g = false := by
  intro f
  induction f using forest_induction with
  | nil => intro _ h; simp [find_node_recursive] at h
  | session sid nm2 tags proto rest ih =>
      intro hnd hg hn j nmj expj csj hfn
      by_cases hs : sid = g
      · rw [find_node_recursive, if_pos hs] at hg; cases hg
      · rw [find_node_recursive, if_neg hs] at hg
        by_cases hsn : sid = n
        · rw [find_node_recursive, if_pos hsn] at hfn; cases hfn
        · rw [find_node_recursive, if_neg hsn] at hfn
          simp only [forest_ids, List.nodup_cons] at hnd
          exact ih hnd.2 hg hn hfn
  | group gid nm2 exp2 cs2 rest ihc ih =>
      intro hnd hg hn j nmj expj csj hfn
      simp only [forest_ids, List.nodup_cons, List.nodup_append,
        List.mem_append, not_or] at hnd
      obtain ⟨⟨hg1, hg2⟩, hndc, hndr, hdisj⟩ := hnd
      by_cases hgg : gid = g
      · rw [find_node_recursive, if_pos hgg] at hg
        injection hg with hg
        injection hg with e1 e2 e3 e4
        subst hgg; subst e2; subst e3; subst e4
        have hne : n ≠ gid := fun e => hg1 (e ▸ hn)
        rw [find_node_recursive, if_neg (fun e => hne e.symm)] at hfn
        cases hc : find_node_recursive cs2 n with
        | some found =>
            rw [hc] at hfn
            injection hfn with hfn; subst hfn
            cases hcon : contains_node csj gid
            · rfl
            · exact absurd
                (subtree_ids_subset hc ((contains_iff_mem gid csj).mp hcon))
                hg1
        | none =>
            have hsome := (find_isSome_iff_mem n cs2).mpr hn
            rw [hc] at hsome; simp at hsome
      · rw [find_node_recursive, if_neg hgg] at hg
        cases hcg : find_node_recursive cs2 g with
        | some found =>
            rw [hcg] at hg
            injection hg with hg; subst hg
            have hncs2 : n ∈ forest_ids cs2 := subtree_ids_subset hcg hn
            have hne : n ≠ gid := fun e => hg1 (e ▸ hncs2)
            rw [find_node_recursive, if_neg (fun e => hne e.symm)] at hfn
            cases hcn : find_node_recursive cs2 n with
            | some found2 =>
                rw [hcn] at hfn
                injection hfn with hfn; subst hfn
                exact ihc hndc hcg hn hcn
            | none =>
                have hsome := (find_isSome_iff_mem n cs2).mpr hncs2
                rw [hcn] at hsome; simp at hsome
        | none =>
            rw [hcg] at hg
            have hnrest : n ∈ forest_ids rest := subtree_ids_subset hg hn
            have hne : n ≠ gid := fun e => hg2 (e ▸ hnrest)
            rw [find_node_recursive, if_neg (fun e => hne e.symm)] at hfn
            have hncs2 : n ∉ forest_ids cs2 := fun hm =>
              (List.disjoint_left.mp hdisj hm) hnrest
            rw [find_eq_none_of_not_mem hncs2] at hfn
            exact ih hndr hg hn hfn

/-- With unique ids, `find_node_location_recursive` returning `(some g, i)`
means `find_node_recursive` locates a group with id `g` whose children
have the node at position `i`. -/
theorem location_spec {n : String} :
    ∀ {f : List SessionNode} {g : String} {old : Nat},
      (forest_ids f).Nodup →
      find_node_location_recursive f n = some (some g, old) →
      ∃ nm exp cs,
        find_node_recursive f g = some (.Group g nm exp cs)
        ∧ position_of cs n = some old ∧ n ∈ forest_ids cs := by
  intro f
  induction f using forest_induction with
  | nil => intro g old _ h; simp [find_node_location_recursive] at h
  | session sid nm tags proto rest ih =>
      intro g old hnd h
      rw [find_node_location_recursive] at h
      simp only [forest_ids, List.nodup_cons] at hnd
      obtain ⟨nm2, exp2, cs2, h1, h2, h3⟩ := ih hnd.2 h
      have hgmem : g ∈ forest_ids rest := find_some_mem h1
      have hs : sid ≠ g := fun e => hnd.1 (e ▸ hgmem)
      exact ⟨nm2, exp2, cs2,
        by rw [find_node_recursive, if_neg hs]; exact h1, h2, h3⟩
  | group gid nm exp cs2 rest ihc ih =>
      intro g old hnd h
      simp only [forest_ids, List.nodup_cons, List.nodup_append,
        List.mem_append, not_or] at hnd
      obtain ⟨⟨hg1, hg2⟩, hndc, hndr, hdisj⟩ := hnd
      rw [find_node_location_recursive] at h
      cases hp : position_of cs2 n with
      | some idx =>
          rw [hp] at h
          injection h with h
          have hgg : some gid = some g := congrArg Prod.fst h
          have hidx : idx = old := congrArg Prod.snd h
          injection hgg with hgg
          subst hgg; subst hidx
          exact ⟨nm, exp, cs2,
            by rw [find_node_recursive, if_pos rfl], hp,
            position_of_mem_ids hp⟩
      | none =>
          rw [hp] at h
          cases hlc : find_node_location_recursive cs2 n with
          | some found =>
              rw [hlc] at h
              injection h with h; subst h
              obtain ⟨nm2, exp2, cs3, h1, h2, h3⟩ := ihc hndc hlc
              have hgmem : g ∈ forest_ids cs2 := find_some_mem h1
              have hgg : gid ≠ g := fun e => hg1 (e ▸ hgmem)
              refine ⟨nm2, exp2, cs3, ?_, h2, h3⟩
              rw [find_node_recursive, if_neg hgg, h1]
          | none =>
              rw [hlc] at h
              obtain ⟨nm2, exp2, cs3, h1, h2, h3⟩ := ih hndr h
              have hgmem : g ∈ forest_ids rest := find_some_mem h1
              have hgg : gid ≠ g := fun e => hg2 (e ▸ hgmem)
              have hgcs : g ∉ forest_ids cs2 := fun hm =>
                (List.disjoint_left.mp hdisj hm) hgmem
              refine ⟨nm2, exp2, cs3, ?_, h2, h3⟩
              rw [find_node_recursive, if_neg hgg,
                find_eq_none_of_not_mem hgcs]
              exact h1

theorem location_recursive_fst {n : String} :
    ∀ {f : List SessionNode} {r : Option String × Nat},
      find_node_location_recursive f n = some r → ∃ g i, r = (some g, i) := by
  intro f
  induction f using forest_induction with
  | nil => intro r h; simp [find_node_location_recursive] at h
  | session sid nm tags proto rest ih =>
      intro r h
      rw [find_node_location_recursive] at h
      exact ih h
  | group gid nm exp cs rest ihc ih =>
      intro r h
      rw [find_node_location_recursive] at h
      cases hp : position_of cs n with
      | some idx =>
          rw [hp] at h; injection h with h
          exact ⟨gid, idx, h.symm⟩
      | none =>
          rw [hp] at h
          cases hlc : find_node_location_recursive cs n with
          | some found =>
              rw [hlc] at h; injection h with h
              exact h ▸ ihc hlc
          | none =>
              rw [hlc] at h
              exact ih h

/-- C3: moving a node to a later index within its current parent adjusts
the desired index by one for the hole left by the removal, and clamps it
to the post-removal children length: the updated parent's children are the
old children with the node erased at its old position and re-inserted at
`min (desired − 1) length`. -/
theorem move_node_hole_adjustment (store : SessionStore) (n : String)
    (p : Option String) (old desired : Nat)
    (hnd : (forest_ids store.root).Nodup)
    (hloc : find_node_location store n = some (p, old))
    (hlt : old < desired) :
    ∃ node cs,
      children_at store p = some cs
      ∧ cs[old]? = some node ∧ node.id = n
      ∧ (move_node store n p desired).2 = true
      ∧ children_at (move_node store n p desired).1 p
          = some (insert_at (cs.eraseIdx old)
              (min (desired - 1) (cs.eraseIdx old).length) node) := by
  cases p with
  | none =>
      have hp : position_of store.root n = some old := by
        rw [find_node_location] at hloc
        cases hq : position_of store.root n with
        | some idx =>
            rw [hq] at hloc
            injection hloc with h
            have h2 := congrArg Prod.snd h
            simp at h2
            rw [h2]
        | none =>
            rw [hq] at hloc
            obtain ⟨g, i, he⟩ := location_recursive_fst hloc
            exact absurd (congrArg Prod.fst he) (by simp)
      obtain ⟨node, hget, hid⟩ := position_of_get hp
      have hmv : move_node store n none desired
          = ({ store with
                root := insert_at (store.root.eraseIdx old)
                  (min (desired - 1) (store.root.eraseIdx old).length)
                  node }, true) := by
        simp only [move_node, hloc, hget]
        simp [hlt]
      exact ⟨node, store.root, rfl, hget, hid,
        by rw [hmv], by rw [hmv]; rfl⟩
  | some g =>
      have hrec : find_node_location_recursive store.root n
          = some (some g, old) := by
        rw [find_node_location] at hloc
        cases hq : position_of store.root n with
        | some idx =>
            rw [hq] at hloc
            injection hloc with h
            exact absurd (congrArg Prod.fst h) (by simp)
        | none => rw [hq] at hloc; exact hloc
      obtain ⟨nm, exp, cs, hfind, hpos, hmemcs⟩ := location_spec hnd hrec
      obtain ⟨node, hget, hid⟩ := position_of_get hpos
      have hanc : is_ancestor_of store n g = false := by
        rw [is_ancestor_of]
        cases hfn : find_node store n with
        | none => rfl
        | some nd =>
            cases nd with
            | Session _ _ _ _ => rfl
            | Group j nmj expj csj =>
                exact no_cycle hnd hfind hmemcs hfn
      obtain ⟨h1, h2, h3⟩ := remove_spec hnd hfind hpos
      have h1' : (remove_from_parent store.root (some g) n).1 = some node := by
        rw [h1, hget]
      have hmv : move_node store n (some g) desired
          = ({ store with
                root := insert_into_parent
                  (remove_from_parent store.root (some g) n).2 g node
                  (desired - 1) }, true) := by
        simp only [move_node, hanc, hloc, h1']
        simp [hlt]
      have hnd2 : (forest_ids (remove_from_parent store.root (some g) n).2).Nodup :=
        hnd.sublist h3
      have hfin := find_insert node (desired - 1) hnd2 h2
      refine ⟨node, cs, ?_, hget, hid, by rw [hmv], ?_⟩
      · simp only [children_at, find_node, hfind]
      · rw [hmv]
        simp only [children_at, find_node, hfin]

/-- Witness store for `move_node_hole_adjustment`: root `[A, B, C]`. -/
def s6_store : SessionStore :=
  ⟨1, [.Session "a" "A" [] (.Telnet ⟨"h", 23, none, none, none⟩),
       .Session "b" "B" [] (.Telnet ⟨"h", 23, none, none, none⟩),
       .Session "c" "C" [] (.Telnet ⟨"h", 23, none, none, none⟩)], []⟩

/-- Witness for `move_node_hole_adjustment`: scenario S6,
`move_node(A, parent=None, index=2)` on root `[A,B,C]` succeeds and
re-inserts `A` at position `min 1 2 = 1` of `[B,C]`, i.e. `[B,A,C]`. -/
theorem move_node_hole_adjustment_witness :
    ∃ node cs,
      children_at s6_store none = some cs
      ∧ cs[0]? = some node ∧ node.id = "a"
      ∧ (move_node s6_store "a" none 2).2 = true
      ∧ children_at (move_node s6_store "a" none 2).1 none
          = some (insert_at (cs.eraseIdx 0)
              (min (2 - 1) (cs.eraseIdx 0).length) node) :=
  move_node_hole_adjustment s6_store "a" none 0 2
    (by simp [s6_store, forest_ids])
    (by simp [find_node_location, s6_store, position_of, SessionNode.id])
    (by decide)

/-! ## JSON serialization (session_store.rs `Serialize`/`Deserialize`
derives)

The serde-derived code is generated from the attributes visible in
session_store.rs: `SessionNode` is internally tagged with `type`,
`ProtocolConfig` with `protocol`, `AuthMethod` with `method`;
`expanded` defaults to `true`, `tags`/`env`/`credential_presets` and the
telnet credentials default to empty/`None`; `Option` fields absent from
the input decode to `None`.  JSON is embedded as a value tree (numbers in
this model are the unsigned integers the store uses); field lookup is
key-based, mirroring serde's order-independent, unknown-field-ignoring
deserialization. -/

inductive Json where
  | null
  | bool (b : Bool)
  | num (n : Nat)
  | str (s : String)
  | arr (xs : List Json)
  | obj (fields : List (String × Json))

/-- Key lookup in a JSON object (first occurrence). -/
def get_field : List (String × Json) → String → Option Json
  | [], _ => none
  | (k, v) :: rest, key => if k = key then some v else get_field rest key

def opt_str_json : Option String → Json
  | none => .null
  | some s => .str s

def opt_u64_json : Option (Fin 18446744073709551616) → Json
  | none => .null
  | some v => .num v.val

/-- `AuthMethod` serialization (tag field `method`). -/
def auth_to_json : AuthMethod → Json
  | .Interactive => .obj [("method", .str "Interactive")]
  | .Password pw => .obj [("method", .str "Password"), ("password", .str pw)]
  | .PrivateKey path pp =>
      .obj [("method", .str "PrivateKey"), ("path", .str path),
            ("passphrase", opt_str_json pp)]
  | .Agent => .obj [("method", .str "Agent")]

def env_to_json (env : List (String × String)) : Json :=
  .obj (env.map (fun p => (p.1, .str p.2)))

/-- `ProtocolConfig` serialization (tag field `protocol`, struct fields
flattened in declaration order). -/
def protocol_to_json : ProtocolConfig → Json
  | .Ssh c =>
      .obj [("protocol", .str "Ssh"), ("host", .str c.host),
            ("port", .num c.port.val), ("username", opt_str_json c.username),
            ("auth", auth_to_json c.auth), ("env", env_to_json c.env),
            ("keepalive_interval_secs", opt_u64_json c.keepalive_interval_secs),
            ("initial_command", opt_str_json c.initial_command)]
  | .Telnet c =>
      .obj [("protocol", .str "Telnet"), ("host", .str c.host),
            ("port", .num c.port.val), ("username", opt_str_json c.username),
            ("password", opt_str_json c.password),
            ("encoding", opt_str_json c.encoding)]

def preset_to_json (p : CredentialPreset) : Json :=
  .obj [("id", .str p.id), ("name", .str p.name),
        ("username", .str p.username), ("password", .str p.password)]

mutual

/-- `SessionNode` serialization (tag field `type`). -/
def node_to_json : SessionNode → Json
  | .Group i nm exp cs =>
      .obj [("type", .str "Group"), ("id", .str i), ("name", .str nm),
            ("expanded", .bool exp), ("children", .arr (nodes_to_json cs))]
  | .Session i nm tags proto =>
      .obj [("type", .str "Session"), ("id", .str i), ("name", .str nm),
            ("tags", .arr (tags.map .str)),
            ("protocol", protocol_to_json proto)]

def nodes_to_json : List SessionNode → List Json
  | [] => []
  | nd :: rest => node_to_json nd :: nodes_to_json rest

end

/-- `SessionStore` serialization. -/
def store_to_json (s : SessionStore) : Json :=
  .obj [("version", .num s.version.val),
        ("root", .arr (nodes_to_json s.root)),
        ("credential_presets", .arr (s.credential_presets.map preset_to_json))]

/-- `Option<String>` field deserialization: absent and `null` give `None`. -/
def decode_opt_str : Option Json → Option (Option String)
  | none => some none
  | some .null => some none
  | some (.str s) => some (some s)
  | _ => none

def decode_opt_u64 : Option Json → Option (Option (Fin 18446744073709551616))
  | none => some none
  | some .null => some none
  | some (.num n) =>
      if h : n < 18446744073709551616 then some (some ⟨n, h⟩) else none
  | _ => none

def decode_port : Option Json → Option (Fin 65536)
  | some (.num n) => if h : n < 65536 then some ⟨n, h⟩ else none
  | _ => none

def decode_str_list : List Json → Option (List String)
  | [] => some []
  | .str s :: rest =>
      match decode_str_list rest with
      | some ss => some (s :: ss)
      | none => none
  | _ => none

/-- `tags` deserialization (`#[serde(default)]`: absent gives `[]`). -/
def decode_tags : Option Json → Option (List String)
  | none => some []
  | some (.arr xs) => decode_str_list xs
  | _ => none

def decode_env_fields : List (String × Json) → Option (List (String × String))
  | [] => some []
  | (k, .str v) :: rest =>
      match decode_env_fields rest with
      | some e => some ((k, v) :: e)
      | none => none
  | _ => none

/-- `env` deserialization (`#[serde(default)]`: absent gives the empty
map). -/
def decode_env : Option Json → Option (List (String × String))
  | none => some []
  | some (.obj fields) => decode_env_fields fields
  | _ => none

def decode_auth : Json → Option AuthMethod
  | .obj fields =>
      match get_field fields "method" with
      | some (.str "Interactive") => some .Interactive
      | some (.str "Password") =>
          match get_field fields "password" with
          | some (.str pw) => some (.Password pw)
          | _ => none
      | some (.str "PrivateKey") =>
          match get_field fields "path",
                decode_opt_str (get_field fields "passphrase") with
          | some (.str path), some pp => some (.PrivateKey path pp)
          | _, _ => none
      | some (.str "Agent") => some .Agent
      | _ => none
  | _ => none

def decode_protocol : Json → Option ProtocolConfig
  | .obj fields =>
      match get_field fields "protocol" with
      | some (.str "Ssh") =>
          match get_field fields "host", decode_port (get_field fields "port"),
                decode_opt_str (get_field fields "username"),
                (match get_field fields "auth" with
                 | some a => decode_auth a
                 | none => none),
                decode_env (get_field fields "env"),
                decode_opt_u64 (get_field fields "keepalive_interval_secs"),
                decode_opt_str (get_field fields "initial_command") with
          | some (.str host), some port, some username, some auth, some env,
            some keepalive, some cmd =>
              some (.Ssh ⟨host, port, username, auth, env, keepalive, cmd⟩)
          | _, _, _, _, _, _, _ => none
      | some (.str "Telnet") =>
          match get_field fields "host", decode_port (get_field fields "port"),
                decode_opt_str (get_field fields "username"),
                decode_opt_str (get_field fields "password"),
                decode_opt_str (get_field fields "encoding") with
          | some (.str host), some port, some username, some password,
            some enc =>
              some (.Telnet ⟨host, port, username, password, enc⟩)
          | _, _, _, _, _ => none
      | _ => none
  | _ => none

/-- `expanded` deserialization (`#[serde(default = "default_expanded")]`:
absent gives `true`). -/
def decode_expanded : Option Json → Option Bool
  | none => some true
  | some (.bool b) => some b
  | _ => none

theorem sizeOf_get_field {fields : List (String × Json)} {k : String}
    {v : Json} (h : get_field fields k = some v) : sizeOf v < sizeOf fields := by
  induction fields with
  | nil => simp [get_field] at h
  | cons p rest ih =>
      obtain ⟨a, b⟩ := p
      rw [get_field] at h
      by_cases ha : a = k
      · rw [if_pos ha] at h
        cases h
        simp
        omega
      · rw [if_neg ha] at h
        have := ih h
        simp
        omega

mutual

def decode_node : Json → Option SessionNode
  | .obj fields =>
      match get_field fields "type" with
      | some (.str "Group") =>
          match hc : get_field fields "children" with
          | some (.arr xs) =>
              match decode_nodes xs with
              | some children =>
                  match get_field fields "id", get_field fields "name",
                        decode_expanded (get_field fields "expanded") with
                  | some (.str i), some (.str nm), some exp =>
                      some (.Group i nm exp children)
                  | _, _, _ => none
              | none => none
          | _ => none
      | some (.str "Session") =>
          match get_field fields "id", get_field fields "name",
                decode_tags (get_field fields "tags"),
                (match get_field fields "protocol" with
                 | some pj => decode_protocol pj
                 | none => none) with
          | some (.str i), some (.str nm), some tags, some proto =>
              some (.Session i nm tags proto)
          | _, _, _, _ => none
      | _ => none
  | _ => none
termination_by j => sizeOf j
decreasing_by
  have := sizeOf_get_field hc
  simp at this ⊢
  omega

def decode_nodes : List Json → Option (List SessionNode)
  | [] => some []
  | j :: rest =>
      match decode_node j, decode_nodes rest with
      | some nd, some nds => some (nd :: nds)
      | _, _ => none
termination_by l => sizeOf l

end

def decode_preset : Json → Option CredentialPreset
  | .obj fields =>
      match get_field fields "id", get_field fields "name",
            get_field fields "username", get_field fields "password" with
      | some (.str i), some (.str nm), some (.str u), some (.str pw) =>
          some ⟨i, nm, u, pw⟩
      | _, _, _, _ => none
  | _ => none

def decode_presets : List Json → Option (List CredentialPreset)
  | [] => some []
  | j :: rest =>
      match decode_preset j, decode_presets rest with
      | some p, some ps => some (p :: ps)
      | _, _ => none

def decode_version : Option Json → Option (Fin 4294967296)
  | some (.num n) => if h : n < 4294967296 then some ⟨n, h⟩ else none
  | _ => none

/-- `credential_presets` deserialization (`#[serde(default)]`). -/
def decode_preset_field : Option Json → Option (List CredentialPreset)
  | none => some []
  | some (.arr xs) => decode_presets xs
  | _ => none

def decode_store : Json → Option SessionStore
  | .obj fields =>
      match decode_version (get_field fields "version"),
            (match get_field fields "root" with
             | some (.arr xs) => decode_nodes xs
             | _ => none),
            decode_preset_field (get_field fields "credential_presets") with
      | some v, some root, some presets => some ⟨v, root, presets⟩
      | _, _, _ => none
  | _ => none

/-! ### Round-trip lemmas -/

theorem decode_opt_str_roundtrip (o : Option String) :
    decode_opt_str (some (opt_str_json o)) = some o := by
  cases o <;> rfl

theorem decode_opt_u64_roundtrip (o : Option (Fin 18446744073709551616)) :
    decode_opt_u64 (some (opt_u64_json o)) = some o := by
  cases o with
  | none => rfl
  | some v => simp [opt_u64_json, decode_opt_u64, v.isLt]

theorem decode_port_roundtrip (p : Fin 65536) :
    decode_port (some (.num p.val)) = some p := by
  simp [decode_port, p.isLt]

theorem decode_str_list_roundtrip (ts : List String) :
    decode_str_list (ts.map .str) = some ts := by
  induction ts with
  | nil => rfl
  | cons t ts ih => simp [decode_str_list, ih]

theorem decode_env_fields_roundtrip (env : List (String × String)) :
    decode_env_fields (env.map (fun p => (p.1, .str p.2))) = some env := by
  induction env with
  | nil => rfl
  | cons p rest ih => simp [decode_env_fields, ih]

theorem decode_auth_roundtrip (a : AuthMethod) :
    decode_auth (auth_to_json a) = some a := by
  cases a with
  | Interactive => rfl
  | Password pw => simp [auth_to_json, decode_auth, get_field]
  | PrivateKey path pp =>
      simp [auth_to_json, decode_auth, get_field, decode_opt_str_roundtrip]
  | Agent => rfl

theorem decode_protocol_roundtrip (p : ProtocolConfig) :
    decode_protocol (protocol_to_json p) = some p := by
  cases p with
  | Ssh c =>
      simp [protocol_to_json, decode_protocol, get_field,
        decode_port_roundtrip, decode_opt_str_roundtrip,
        decode_opt_u64_roundtrip, decode_auth_roundtrip, decode_env,
        env_to_json, decode_env_fields_roundtrip]
  | Telnet c =>
      simp [protocol_to_json, decode_protocol, get_field,
        decode_port_roundtrip, decode_opt_str_roundtrip]

theorem decode_preset_roundtrip (p : CredentialPreset) :
    decode_preset (preset_to_json p) = some p := by
  simp [preset_to_json, decode_preset, get_field]

theorem decode_presets_roundtrip (ps : List CredentialPreset) :
    decode_presets (ps.map preset_to_json) = some ps := by
  induction ps with
  | nil => rfl
  | cons p rest ih => simp [decode_presets, decode_preset_roundtrip, ih]

theorem decode_nodes_roundtrip :
    ∀ f : List SessionNode, decode_nodes (nodes_to_json f) = some f := by
  intro f
  induction f using forest_induction with
  | nil => simp [nodes_to_json, decode_nodes]
  | session i nm tags proto rest ih =>
      simp [nodes_to_json, decode_nodes, node_to_json, decode_node,
        get_field, decode_tags, decode_str_list_roundtrip,
        decode_protocol_roundtrip, ih]
  | group i nm exp cs rest ihc ih =>
      simp [nodes_to_json, decode_nodes, node_to_json, decode_node,
        get_field, decode_expanded, ihc, ih]

/-- C7: serialization round-trip.  For every store value,
deserializing the JSON produced by serialization restores the store
exactly: ids, order, flags and protocol fields are all preserved. -/
theorem store_roundtrip (s : SessionStore) :
    decode_store (store_to_json s) = some s := by
  simp [store_to_json, decode_store, get_field, decode_version,
    s.version.isLt, decode_preset_field, decode_presets_roundtrip,
    decode_nodes_roundtrip]

/-! ## Strict connection-string parser
(ssh_connect_modal.rs lines 181-205) -/

/-- `SshAuthConfig` (connection/ssh/auth.rs lines 9-20); `PathBuf` as
`String`. -/
inductive SshAuthConfig where
  | Password (password : String)
  | PrivateKey (path : String) (passphrase : Option String)
  | Auto
deriving DecidableEq

/-- `SshConfig` (connection/ssh/mod.rs lines 14-23); the environment map
as an association list, `Duration` as whole seconds. -/
structure SshConfig where
  host : String
  port : Nat
  username : Option String
  auth : SshAuthConfig
  env : List (String × String)
  keepalive_interval : Option Nat
  initial_command : Option String
deriving DecidableEq

/-- `SshConfig::new` (mod.rs lines 26-36): auth `Auto`, empty environment,
30-second keepalive. -/
def SshConfig.new (host : String) (port : Nat) : SshConfig :=
  ⟨host, port, none, .Auto, [], some 30, none⟩

/-- `SshConfig::with_username` (mod.rs lines 38-41). -/
def SshConfig.with_username (c : SshConfig) (username : String) : SshConfig :=
  { c with username := some username }

/-- `str::trim` (ASCII whitespace; the source trims per Unicode
`White_Space`, which agrees on all inputs used here). -/
def trim_chars (s : List Char) : List Char :=
  ((s.dropWhile Char.isWhitespace).reverse.dropWhile Char.isWhitespace).reverse

/-- `str::rsplit_once`: split at the last occurrence of `c`. -/
def rsplit_once (c : Char) : List Char → Option (List Char × List Char)
  | [] => none
  | a :: rest =>
      match rsplit_once c rest with
      | some (l, r) => some (a :: l, r)
      | none => if a = c then some ([], rest) else none

/-- `str::split_once`: split at the first occurrence of `c`. -/
def split_once (c : Char) : List Char → Option (List Char × List Char)
  | [] => none
  | a :: rest =>
      if a = c then some ([], rest)
      else
        match split_once c rest with
        | some (l, r) => some (a :: l, r)
        | none => none

def parse_u16_digits : List Char → Nat → Option Nat
  | [], acc => some acc
  | c :: rest, acc =>
      if c.isDigit then
        let v := acc * 10 + (c.toNat - 48)
        if v < 65536 then parse_u16_digits rest v else none
      else none

/-- `str::parse::<u16>`: optional leading `+`, one or more decimal digits,
value at most 65535 (overflow rejected). -/
def parse_u16 (s : List Char) : Option Nat :=
  let t := match s with
    | '+' :: rest => rest
    | _ => s
  match t with
  | [] => none
  | _ => parse_u16_digits t 0

/-- The `@`-splitting tail of `parse_ssh_string`
(ssh_connect_modal.rs lines 196-204). -/
def parse_user_host (user_host : List Char) (port : Nat) :
    Except String SshConfig :=
  match split_once '@' user_host with
  | none => .error "Format: user@host[:port]"
  | some (username, host) =>
      if username = [] ∨ host = [] then .error "Username and host required"
      else
        .ok ((SshConfig.new (String.mk host) port).with_username
          (String.mk username))

/-- `parse_ssh_string` (ssh_connect_modal.rs lines 181-205). -/
def parse_ssh_string (input : String) : Except String SshConfig :=
  let t := trim_chars input.data
  if t = [] then .error "Connection string required"
  else
    match rsplit_once ':' t with
    | some (left, port_str) =>
        match parse_u16 port_str with
        | none => .error "Invalid port number"
        | some port => parse_user_host left port
    | none => parse_user_host t 22

/-- C8: the strict parser.  Empty trimmed input errors
"Connection string required"; a rightmost-`:` suffix that is not a `u16`
errors "Invalid port number"; a present suffix parses as the port and an
absent one defaults to 22, with both `@`-sides required non-empty; and
scenario S4 holds on its four concrete inputs. -/
theorem parse_ssh_string_spec :
    (∀ input : String, trim_chars input.data = [] →
        parse_ssh_string input = .error "Connection string required")
  ∧ (∀ (input : String) (l r : List Char),
        rsplit_once ':' (trim_chars input.data) = some (l, r) →
        parse_u16 r = none →
        parse_ssh_string input = .error "Invalid port number")
  ∧ (∀ (input : String) (l r : List Char) (p : Nat),
        rsplit_once ':' (trim_chars input.data) = some (l, r) →
        parse_u16 r = some p →
        parse_ssh_string input = parse_user_host l p)
  ∧ (∀ input : String, trim_chars input.data ≠ [] →
        rsplit_once ':' (trim_chars input.data) = none →
        parse_ssh_string input = parse_user_host (trim_chars input.data) 22)
  ∧ parse_ssh_string "root@10.0.0.1"
      = .ok ⟨"10.0.0.1", 22, some "root", .Auto, [], some 30, none⟩
  ∧ parse_ssh_string "admin@host:2222"
      = .ok ⟨"host", 2222, some "admin", .Auto, [], some 30, none⟩
  ∧ parse_ssh_string "hostname" = .error "Format: user@host[:port]"
  ∧ parse_ssh_string "u@h:abc" = .error "Invalid port number" := by
  have hne : ∀ (s : List Char) (l r : List Char),
      rsplit_once ':' s = some (l, r) → s ≠ [] := by
    intro s l r h hs
    subst hs
    simp [rsplit_once] at h
  refine ⟨?_, ?_, ?_, ?_, by rfl, by rfl, by rfl, by rfl⟩
  · intro input h
    simp [parse_ssh_string, h]
  · intro input l r h1 h2
    simp [parse_ssh_string, hne _ _ _ h1, h1, h2]
  · intro input l r p h1 h2
    simp [parse_ssh_string, hne _ _ _ h1, h1, h2]
  · intro input h1 h2
    simp [parse_ssh_string, h1, h2]

/-- Witness for `parse_ssh_string_spec`: whitespace-only input. -/
theorem parse_ssh_string_spec_witness :
    parse_ssh_string "  " = .error "Connection string required" :=
  parse_ssh_string_spec.1 "  " (by decide)

/-! ## SSH auto authentication (connection/ssh/auth.rs lines 105-130) -/

def default_key_names : List String :=
  ["id_ed25519", "id_rsa", "id_ecdsa", "id_dsa"]

/-- `find_default_ssh_keys` (auth.rs lines 118-130).  The filesystem is an
oracle: `home` models `dirs::home_dir()`, `fexists` models
`Path::exists`; `Path::join` is rendered with `/`. -/
def find_default_ssh_keys (home : Option String)
    (fexists : String → Bool) : List String :=
  match home with
  | none => []
  | some h =>
      (default_key_names.map (fun k => h ++ "/.ssh/" ++ k)).filter fexists

/-- The key loop of `authenticate_auto` (auth.rs lines 109-113); `accepts`
models `authenticate_with_key` returning `Ok` for the key file. -/
def auth_auto_keys (accepts : String → Bool) :
    List String → Except String String
  | [] =>
      .error "auto authentication failed: no default key files could authenticate"
  | k :: rest => if accepts k then .ok k else auth_auto_keys accepts rest

/-- `authenticate_auto` (auth.rs lines 105-116), returning the path of the
accepted key. -/
def authenticate_auto (home : Option String)
    (fexists accepts : String → Bool) : Except String String :=
  auth_auto_keys accepts (find_default_ssh_keys home fexists)

theorem auth_auto_keys_first (accepts : String → Bool) :
    ∀ l : List String,
      auth_auto_keys accepts l
        = match l.find? accepts with
          | some k => .ok k
          | none =>
              .error "auto authentication failed: no default key files could authenticate" := by
  intro l
  induction l with
  | nil => rfl
  | cons k rest ih =>
      by_cases hk : accepts k = true <;>
        simp [auth_auto_keys, List.find?_cons, hk, ih]

/-- C9: auto authentication tries exactly the canonically ordered default
key files that exist, succeeds with the first accepted key path, and
otherwise fails with an error containing "auto authentication failed". -/
theorem auto_auth_spec (home : Option String)
    (fexists accepts : String → Bool) :
    (∀ h : String,
        find_default_ssh_keys (some h) fexists
          = (["id_ed25519", "id_rsa", "id_ecdsa", "id_dsa"].map
              (fun k => h ++ "/.ssh/" ++ k)).filter fexists)
  ∧ (authenticate_auto home fexists accepts
      = match (find_default_ssh_keys home fexists).find? accepts with
        | some k => .ok k
        | none =>
            .error "auto authentication failed: no default key files could authenticate")
  ∧ ((∀ k ∈ find_default_ssh_keys home fexists, accepts k = false) →
      ∃ pre post : String,
        authenticate_auto home fexists accepts
          = .error (pre ++ "auto authentication failed" ++ post)) := by
  refine ⟨fun h => rfl, auth_auto_keys_first accepts _, ?_⟩
  intro hall
  refine ⟨"", ": no default key files could authenticate", ?_⟩
  have hf : (find_default_ssh_keys home fexists).find? accepts = none := by
    rw [List.find?_eq_none]
    intro x hx
    simp [hall x hx]
  rw [authenticate_auto, auth_auto_keys_first accepts _, hf]
  rfl

/-- Witness for `auto_auth_spec`: no home directory, every authentication
attempt failing. -/
theorem auto_auth_spec_witness :
    ∃ pre post : String,
      authenticate_auto none (fun _ => false) (fun _ => false)
        = .error (pre ++ "auto authentication failed" ++ post) :=
  (auto_auth_spec none (fun _ => false) (fun _ => false)).2.2
    (by intro k hk; simp [find_default_ssh_keys] at hk)

/-! ## Connection-state failure monotonicity -/

/-- `ConnectionState` (connection/mod.rs lines 13-18). -/
inductive ConnectionState where
  | Connecting
  | Connected
  | Disconnected
  | Error (msg : String)
deriving DecidableEq

/-- The events under which the Telnet terminal driver's shared state cell
is written (telnet/terminal.rs): `shutdown` (line 86), outbound write
error (line 146), NAWS resize (no state write, lines 150-157), `Close`
command or dropped channel (line 159), read EOF (line 168), data read (no
state write, lines 172-199), read error (line 203). -/
inductive TelnetDriverAction where
  | shutdown
  | write_error (msg : String)
  | resize_naws
  | close_command
  | read_eof
  | read_data
  | read_error (msg : String)

/-- Effect of each Telnet driver event on the state cell. -/
def telnet_driver_step :
    ConnectionState → TelnetDriverAction → ConnectionState
  | _, .shutdown => .Disconnected
  | _, .write_error m => .Error m
  | s, .resize_naws => s
  | _, .close_command => .Disconnected
  | _, .read_eof => .Disconnected
  | s, .read_data => s
  | _, .read_error m => .Error m

/-- The events under which `SshSession`'s state cell is written
(ssh/session.rs): `close` (line 158), `drop` (line 169); opening a
channel does not write the state. -/
inductive SshSessionAction where
  | close
  | drop
  | open_channel

/-- Effect of each `SshSession` event on the state cell. -/
def ssh_session_step : ConnectionState → SshSessionAction → ConnectionState
  | _, .close => .Disconnected
  | _, .drop => .Disconnected
  | s, .open_channel => s

/-- A failure state: `Disconnected` or `Error`. -/
def failed (s : ConnectionState) : Prop :=
  s = .Disconnected ∨ ∃ m, s = .Error m

theorem telnet_driver_step_failed (s : ConnectionState)
    (a : TelnetDriverAction) (h : failed s) :
    failed (telnet_driver_step s a) := by
  cases a <;> simp_all [telnet_driver_step, failed]

theorem ssh_session_step_failed (s : ConnectionState)
    (a : SshSessionAction) (h : failed s) :
    failed (ssh_session_step s a) := by
  cases a <;> simp_all [ssh_session_step, failed]

/-- C10: failure monotonicity.  Once an instance's state is `Disconnected`
or `Error`, no sequence of its state-writing events ever yields
`Connected` again — for the Telnet terminal driver and for `SshSession`
(no event of either writes `Connected`; it is only set at
construction). -/
theorem connection_state_failure_monotonic (s : ConnectionState)
    (h : failed s) :
    (∀ acts : List TelnetDriverAction,
        failed (acts.foldl telnet_driver_step s)
        ∧ acts.foldl telnet_driver_step s ≠ .Connected)
  ∧ (∀ acts : List SshSessionAction,
        failed (acts.foldl ssh_session_step s)
        ∧ acts.foldl ssh_session_step s ≠ .Connected) := by
  have hne : ∀ t : ConnectionState, failed t → t ≠ .Connected := by
    intro t ht
    rcases ht with ht | ⟨m, ht⟩ <;> subst ht <;> simp
  have htel : ∀ (acts : List TelnetDriverAction) (t : ConnectionState),
      failed t → failed (acts.foldl telnet_driver_step t) := by
    intro acts
    induction acts with
    | nil => intro t ht; exact ht
    | cons a rest ih =>
        intro t ht
        exact ih _ (telnet_driver_step_failed t a ht)
  have hssh : ∀ (acts : List SshSessionAction) (t : ConnectionState),
      failed t → failed (acts.foldl ssh_session_step t) := by
    intro acts
    induction acts with
    | nil => intro t ht; exact ht
    | cons a rest ih =>
        intro t ht
        exact ih _ (ssh_session_step_failed t a ht)
  exact ⟨fun acts => ⟨htel acts s h, hne _ (htel acts s h)⟩,
    fun acts => ⟨hssh acts s h, hne _ (hssh acts s h)⟩⟩

/-- Witness for `connection_state_failure_monotonic`: a disconnected
instance stays failed across a close and a data read. -/
theorem connection_state_failure_monotonic_witness :
    failed ([TelnetDriverAction.close_command,
        TelnetDriverAction.read_data].foldl telnet_driver_step
        ConnectionState.Disconnected)
    ∧ [TelnetDriverAction.close_command,
        TelnetDriverAction.read_data].foldl telnet_driver_step
        ConnectionState.Disconnected ≠ ConnectionState.Connected :=
  (connection_state_failure_monotonic ConnectionState.Disconnected
    (Or.inl rfl)).1 [.close_command, .read_data]

end Wirsterm
